import Mathlib

/-!
Shallow embedding of the BrowserCash browser-pool session pool
(src/src/pool.ts, both the basic `SessionPool` and the enhanced variant
appended after it in the same file).

The pool is a single-threaded, cooperatively scheduled object.  We model it
as a transition system whose events are the code's synchronous segments:
everything a method executes between two suspension points (`await`s on the
external provisioning / connection collaborators) is one atomic step.
In-flight `createSession` calls are represented by `Pending` entries; the
environment chooses when each completes and with which result.
-/

namespace BrowserPool

/-- Model of `PooledSession` (enhanced variant fields).  `connected` stands
for what `session.browser.isConnected()` reports. -/
structure Session where
  sid : Nat
  createdAt : Nat
  useCount : Nat
  lastUsedAt : Nat
  connected : Bool
deriving DecidableEq, Repr

/-- The pool configuration fields the core logic reads. -/
structure Config where
  size : Nat
  maxUses : Nat
  maxAgeMs : Nat
  maxIdleMs : Nat
  enableWaitQueue : Bool
deriving DecidableEq, Repr

/-- Predicate `isUsable` of the enhanced variant (pool.ts lines 763-775): false when
disconnected, when `useCount >= maxUses`, when `now - createdAt > maxAgeMs`,
or when `now - lastUsedAt > maxIdleMs`. -/
def isUsable (cfg : Config) (now : Nat) (s : Session) : Bool :=
  s.connected && decide (s.useCount < cfg.maxUses) &&
    decide (now - s.createdAt ≤ cfg.maxAgeMs) &&
    decide (now - s.lastUsedAt ≤ cfg.maxIdleMs)

/-- The `session.useCount++` increment performed at every successful acquisition. -/
def bump (s : Session) : Session := { s with useCount := s.useCount + 1 }

/-- An in-flight `createSession` call.  `acq caller` is the on-demand create
inside `acquire()`; `add` is a create inside `addSession`; `zombie` is an
`addSession` create that already finished and whose session is being closed
(the window between `await closeSession` and the `finally { creating-- }`),
still counted by the `creating` counter. -/
inductive Pending where
  | acq (caller : Nat)
  | add
  | zombie
deriving DecidableEq, Repr

/-- The mutable pool state.  `available` is the stack (list head = top of
the stack = end of the TS array, so `push` is cons and `pop` takes the
head); `inUse` models the `Set`; `waitQueue` holds waiter identities in
FIFO order (head = longest waiting). -/
structure PoolState where
  available : List Session
  inUse : List Session
  creating : Nat
  closed : Bool
  waitQueue : List Nat
  pending : List Pending
deriving DecidableEq, Repr

/-- Getter `totalCount` (pool.ts lines 64-66). -/
def PoolState.totalCount (st : PoolState) : Nat :=
  st.available.length + st.inUse.length + st.creating

/-- The state of a freshly constructed pool. -/
def initState : PoolState :=
  { available := [], inUse := [], creating := 0, closed := false,
    waitQueue := [], pending := [] }

/-- Externally visible actions of a step: returning a session to the
`acquire` caller, resolving or rejecting a waiter, raising an error,
starting a remote provisioning call, or closing a session
(`closeSession` = close the connection and stop the provisioned record). -/
inductive Out where
  | ret (caller : Nat) (s : Session)
  | resolve (waiter : Nat) (s : Session)
  | reject (waiter : Nat)
  | errCreate (caller : Nat)
  | errExhausted (caller : Nat)
  | provision
  | close (s : Session)
deriving DecidableEq, Repr

/-- The `while (available.length > 0)` pop loop of `acquire()`: pop from the
top, discard (close) unusable sessions, stop at the first usable one.
Returns (discarded sessions, found session, remaining stack). -/
def popUsable (cfg : Config) (now : Nat) :
    List Session → List Session × Option Session × List Session
  | [] => ([], none, [])
  | s :: rest =>
    if isUsable cfg now s then ([], some s, rest)
    else
      let r := popUsable cfg now rest
      (s :: r.1, r.2.1, r.2.2)

/-- The synchronous segment of `acquire()` (pool.ts lines 287-348 / 862-919):
the pop loop, then `creating++` and the `totalCount <= size` check.  Under
capacity it launches an on-demand create (a `Pending.acq` entry); over
capacity it parks the caller in the wait queue, or fails with the
pool-exhausted error when the queue is disabled.  Note: the code has no
`closed` check on this path. -/
def acquireStep (cfg : Config) (st : PoolState) (caller now : Nat) :
    PoolState × List Out :=
  match popUsable cfg now st.available with
  | (cl, some s, rest) =>
      ({ st with available := rest, inUse := bump s :: st.inUse },
       cl.map Out.close ++ [Out.ret caller (bump s)])
  | (cl, none, rest) =>
      if rest.length + st.inUse.length + (st.creating + 1) ≤ cfg.size then
        ({ st with available := rest, creating := st.creating + 1,
                   pending := st.pending ++ [Pending.acq caller] },
         cl.map Out.close ++ [Out.provision])
      else if cfg.enableWaitQueue then
        ({ st with available := rest, waitQueue := st.waitQueue ++ [caller] },
         cl.map Out.close)
      else
        ({ st with available := rest },
         cl.map Out.close ++ [Out.errExhausted caller])

/-- Completion of the on-demand create awaited inside `acquire()`.
`res = none` is a rejected `createSession` (error rethrown to the caller
after `creating--`).  On success the code re-checks `totalCount > size`
(with its own `creating` still counted): over capacity the session is
closed and the caller falls through to the wait queue / exhausted error;
otherwise the session is admitted to `inUse` with `useCount++` and
returned. -/
def finishAcqStep (cfg : Config) (st : PoolState) (caller : Nat)
    (res : Option Session) : PoolState × List Out :=
  if Pending.acq caller ∈ st.pending then
    let st0 := { st with pending := st.pending.erase (Pending.acq caller) }
    match res with
    | none => ({ st0 with creating := st0.creating - 1 }, [Out.errCreate caller])
    | some s =>
      if cfg.size < st0.totalCount then
        if cfg.enableWaitQueue then
          ({ st0 with creating := st0.creating - 1,
                      waitQueue := st0.waitQueue ++ [caller] }, [Out.close s])
        else
          ({ st0 with creating := st0.creating - 1 },
           [Out.close s, Out.errExhausted caller])
      else
        ({ st0 with creating := st0.creating - 1, inUse := bump s :: st0.inUse },
         [Out.ret caller (bump s)])
  else (st, [])

/-- The synchronous prefix of `addSession()` (pool.ts lines 194-203 /
776-784): return if closed, `creating++`, abort (undoing the increment)
when `totalCount > size`, otherwise start `createSession`. -/
def addStartStep (cfg : Config) (st : PoolState) : PoolState × List Out :=
  if st.closed then (st, [])
  else if cfg.size < st.available.length + st.inUse.length + (st.creating + 1) then
    (st, [])
  else
    ({ st with creating := st.creating + 1, pending := st.pending ++ [Pending.add] },
     [Out.provision])

/-- Completion of the create awaited inside `addSession()` (pool.ts lines
205-282 / 785-857).  On failure: reject the head waiter if any, then
`creating--`.  On success: if the pool closed meanwhile or `totalCount >
size`, close the new session (the entry becomes a `zombie` until the
`finally` runs); otherwise hand it to the head waiter (`useCount++`, into
`inUse`) or push it onto the available stack, and `creating--`. -/
def finishAddStep (cfg : Config) (st : PoolState) (res : Option Session) :
    PoolState × List Out :=
  if Pending.add ∈ st.pending then
    let st0 := { st with pending := st.pending.erase Pending.add }
    match res with
    | none =>
      match st0.waitQueue, cfg.enableWaitQueue with
      | w :: rest, true =>
          ({ st0 with waitQueue := rest, creating := st0.creating - 1 },
           [Out.reject w])
      | _, _ => ({ st0 with creating := st0.creating - 1 }, [])
    | some s =>
      if st0.closed then
        ({ st0 with pending := st0.pending ++ [Pending.zombie] }, [Out.close s])
      else if cfg.size < st0.totalCount then
        ({ st0 with pending := st0.pending ++ [Pending.zombie] }, [Out.close s])
      else
        match st0.waitQueue, cfg.enableWaitQueue with
        | w :: rest, true =>
            ({ st0 with waitQueue := rest, inUse := bump s :: st0.inUse,
                        creating := st0.creating - 1 }, [Out.resolve w (bump s)])
        | _, _ =>
            ({ st0 with available := s :: st0.available,
                        creating := st0.creating - 1 }, [])
  else (st, [])

/-- End of the `await closeSession` in `addSession`'s closed / over-capacity
branches: the `finally { creating-- }` finally runs. -/
def zombieDoneStep (st : PoolState) : PoolState × List Out :=
  if Pending.zombie ∈ st.pending then
    ({ st with pending := st.pending.erase Pending.zombie,
               creating := st.creating - 1 }, [])
  else (st, [])

/-- Method `replenish()` (pool.ts lines 129-140 / 678-688): compute the deficit;
if positive, fire one `addSession()` (whose synchronous prefix runs
immediately). -/
def replenishStep (cfg : Config) (st : PoolState) : PoolState × List Out :=
  if cfg.size - st.totalCount = 0 then (st, [])
  else addStartStep cfg st

/-- Method `release(session, error)` of the enhanced variant (pool.ts lines
923-955): remove the session from `inUse`; if the fatal flag is set or it
is no longer usable, close it and call `replenish()`; otherwise refresh
`lastUsedAt`, then hand it to the head waiter as a fresh acquisition
(`useCount++`, into `inUse`) or push it onto the available stack.  A
caller only returns a session it currently holds (spec section 3,
ownership), so a `sid` not found in `inUse` is a no-op here. -/
def releaseStep (cfg : Config) (st : PoolState) (sid : Nat) (fatal : Bool)
    (now : Nat) : PoolState × List Out :=
  match st.inUse.find? (fun t => t.sid == sid) with
  | none => (st, [])
  | some s =>
    let st0 := { st with inUse := st.inUse.eraseP (fun t => t.sid == sid) }
    if fatal || !(isUsable cfg now s) then
      let r := replenishStep cfg st0
      (r.1, Out.close s :: r.2)
    else
      let s' := { s with lastUsedAt := now }
      match st0.waitQueue, cfg.enableWaitQueue with
      | w :: rest, true =>
          ({ st0 with waitQueue := rest, inUse := bump s' :: st0.inUse },
           [Out.resolve w (bump s')])
      | _, _ => ({ st0 with available := s' :: st0.available }, [])

/-- Method `shutdown()` (pool.ts lines 387-412 / 959-976): set `closed`, reject
every queued waiter, take all sessions out of `available` and `inUse`, and
close each of them. -/
def shutdownStep (st : PoolState) : PoolState × List Out :=
  ({ st with closed := true, waitQueue := [], available := [], inUse := [] },
   st.waitQueue.map Out.reject ++ (st.available ++ st.inUse).map Out.close)

/-- One event = one synchronous segment of some pool operation. -/
inductive Event where
  | acquire (caller now : Nat)
  | finishAcq (caller : Nat) (res : Option Session)
  | addStart
  | finishAdd (res : Option Session)
  | zombieDone
  | release (sid : Nat) (fatal : Bool) (now : Nat)
  | shutdown
deriving Repr

/-- The transition function of the pool. -/
def step (cfg : Config) (st : PoolState) : Event → PoolState × List Out
  | .acquire c n => acquireStep cfg st c n
  | .finishAcq c r => finishAcqStep cfg st c r
  | .addStart => addStartStep cfg st
  | .finishAdd r => finishAddStep cfg st r
  | .zombieDone => zombieDoneStep st
  | .release sid f n => releaseStep cfg st sid f n
  | .shutdown => shutdownStep st

/-- States reachable from a freshly constructed pool by any sequence of
operations (initialization is the same `addSession` primitive, so it is
covered by `addStart`/`finishAdd` events). -/
inductive Reach (cfg : Config) : PoolState → Prop
  | init : Reach cfg initState
  | next {st : PoolState} (e : Event) : Reach cfg st → Reach cfg (step cfg st e).1

/-! ### Properties of the `acquire` pop loop -/

theorem popUsable_spec (cfg : Config) (now : Nat) (l : List Session) :
    (∀ c ∈ (popUsable cfg now l).1, isUsable cfg now c = false) ∧
    (∀ s, (popUsable cfg now l).2.1 = some s → isUsable cfg now s = true ∧
       (popUsable cfg now l).1.length + (popUsable cfg now l).2.2.length + 1
         = l.length) ∧
    ((popUsable cfg now l).2.1 = none →
       (popUsable cfg now l).1 = l ∧ (popUsable cfg now l).2.2 = []) := by
  induction l with
  | nil => simp [popUsable]
  | cons a t ih =>
    obtain ⟨ih1, ih2, ih3⟩ := ih
    by_cases hu : isUsable cfg now a
    · simp [popUsable, hu]
    · refine ⟨?_, ?_, ?_⟩
      · intro c hc
        simp only [popUsable, if_neg hu, List.mem_cons] at hc
        rcases hc with hc | hc
        · subst hc; simpa using hu
        · exact ih1 c hc
      · intro s hs
        simp only [popUsable, if_neg hu] at hs ⊢
        obtain ⟨hu', hl⟩ := ih2 s hs
        refine ⟨hu', ?_⟩
        simp only [List.length_cons]
        omega
      · intro hs
        simp only [popUsable, if_neg hu] at hs ⊢
        obtain ⟨hc, hr⟩ := ih3 hs
        exact ⟨by rw [hc], hr⟩

theorem popUsable_some_facts {cfg : Config} {now : Nat} {l cl rest : List Session}
    {s : Session} (h : popUsable cfg now l = (cl, some s, rest)) :
    isUsable cfg now s = true ∧ cl.length + rest.length + 1 = l.length := by
  have := (popUsable_spec cfg now l).2.1 s
  rw [h] at this
  exact this rfl

theorem popUsable_none_facts {cfg : Config} {now : Nat} {l cl rest : List Session}
    (h : popUsable cfg now l = (cl, none, rest)) : cl = l ∧ rest = [] := by
  have := (popUsable_spec cfg now l).2.2
  rw [h] at this
  exact this rfl

theorem popUsable_discards {cfg : Config} {now : Nat} {l cl rest : List Session}
    {f : Option Session} (h : popUsable cfg now l = (cl, f, rest)) :
    ∀ c ∈ cl, isUsable cfg now c = false := by
  have := (popUsable_spec cfg now l).1
  rw [h] at this
  exact this

/-! ### The capacity invariant (C1)

The invariant carried through every step: the capacity formula never
exceeds the configured size, and the `creating` counter agrees with the
number of in-flight creation records. -/

def Inv (cfg : Config) (st : PoolState) : Prop :=
  st.totalCount ≤ cfg.size ∧ st.creating = st.pending.length

theorem inv_initState (cfg : Config) : Inv cfg initState := by
  constructor <;> simp [initState, PoolState.totalCount]

theorem inv_acquireStep (cfg : Config) (st : PoolState) (c n : Nat)
    (h : Inv cfg st) : Inv cfg (acquireStep cfg st c n).1 := by
  obtain ⟨h1, h2⟩ := h
  simp only [PoolState.totalCount] at h1
  rcases hp : popUsable cfg n st.available with ⟨cl, f, rest⟩
  rcases f with _ | s
  · obtain ⟨hcl, hrest⟩ := popUsable_none_facts hp
    subst hrest
    simp only [acquireStep, hp]
    split
    all_goals try split
    all_goals
      simp only [Inv, PoolState.totalCount, List.length_nil, List.length_cons,
        List.length_append] at *
    all_goals omega
  · obtain ⟨-, hlen⟩ := popUsable_some_facts hp
    simp only [acquireStep, hp]
    simp only [Inv, PoolState.totalCount, List.length_nil, List.length_cons,
      List.length_append] at *
    omega

theorem inv_finishAcqStep (cfg : Config) (st : PoolState) (c : Nat)
    (res : Option Session) (h : Inv cfg st) :
    Inv cfg (finishAcqStep cfg st c res).1 := by
  obtain ⟨h1, h2⟩ := h
  simp only [PoolState.totalCount] at h1
  by_cases hmem : Pending.acq c ∈ st.pending
  · have hlen : (st.pending.erase (Pending.acq c)).length + 1 = st.pending.length :=
      List.length_erase_add_one hmem
    rcases res with _ | s <;> simp only [finishAcqStep, if_pos hmem]
    all_goals try split
    all_goals try split
    all_goals
      simp only [Inv, PoolState.totalCount, List.length_nil, List.length_cons,
        List.length_append] at *
    all_goals omega
  · simp only [finishAcqStep, if_neg hmem]
    simp only [Inv, PoolState.totalCount, List.length_nil, List.length_cons,
      List.length_append] at *
    omega

theorem inv_addStartStep (cfg : Config) (st : PoolState) (h : Inv cfg st) :
    Inv cfg (addStartStep cfg st).1 := by
  obtain ⟨h1, h2⟩ := h
  simp only [PoolState.totalCount] at h1
  simp only [addStartStep]
  split
  all_goals try split
  all_goals
    simp only [Inv, PoolState.totalCount, List.length_nil, List.length_cons,
      List.length_append] at *
  all_goals omega

theorem inv_finishAddStep (cfg : Config) (st : PoolState) (res : Option Session)
    (h : Inv cfg st) : Inv cfg (finishAddStep cfg st res).1 := by
  obtain ⟨h1, h2⟩ := h
  simp only [PoolState.totalCount] at h1
  by_cases hmem : Pending.add ∈ st.pending
  · have hlen : (st.pending.erase Pending.add).length + 1 = st.pending.length :=
      List.length_erase_add_one hmem
    rcases res with _ | s <;> simp only [finishAddStep, if_pos hmem]
    all_goals try split
    all_goals try split
    all_goals try split
    all_goals
      simp only [Inv, PoolState.totalCount, List.length_nil, List.length_cons,
        List.length_append] at *
    all_goals omega
  · simp only [finishAddStep, if_neg hmem]
    simp only [Inv, PoolState.totalCount, List.length_nil, List.length_cons,
      List.length_append] at *
    omega

theorem inv_replenishStep (cfg : Config) (st : PoolState) (h : Inv cfg st) :
    Inv cfg (replenishStep cfg st).1 := by
  simp only [replenishStep]
  split
  · exact h
  · exact inv_addStartStep cfg st h

theorem inv_zombieDoneStep (cfg : Config) (st : PoolState) (h : Inv cfg st) :
    Inv cfg (zombieDoneStep st).1 := by
  obtain ⟨h1, h2⟩ := h
  simp only [PoolState.totalCount] at h1
  by_cases hmem : Pending.zombie ∈ st.pending
  · have hlen := List.length_erase_add_one hmem
    simp only [zombieDoneStep, if_pos hmem]
    simp only [Inv, PoolState.totalCount] at *
    omega
  · simp only [zombieDoneStep, if_neg hmem]
    simp only [Inv, PoolState.totalCount] at *
    omega

theorem inv_releaseStep (cfg : Config) (st : PoolState) (sid : Nat) (fatal : Bool)
    (now : Nat) (h : Inv cfg st) : Inv cfg (releaseStep cfg st sid fatal now).1 := by
  obtain ⟨h1, h2⟩ := h
  simp only [PoolState.totalCount] at h1
  rcases hf : st.inUse.find? (fun t => t.sid == sid) with _ | s
  · simp only [releaseStep, hf]
    simp only [Inv, PoolState.totalCount] at *
    omega
  · have hmem := List.mem_of_find?_eq_some hf
    have hpa := List.find?_some hf
    have hlen : (st.inUse.eraseP (fun t => t.sid == sid)).length + 1
        = st.inUse.length := List.length_eraseP_add_one hmem hpa
    simp only [releaseStep, hf]
    split
    · refine inv_replenishStep cfg _ ?_
      simp only [Inv, PoolState.totalCount] at *
      omega
    · split
      all_goals
        simp only [Inv, PoolState.totalCount, List.length_nil, List.length_cons,
          List.length_append] at *
      all_goals omega

theorem inv_shutdownStep (cfg : Config) (st : PoolState) (h : Inv cfg st) :
    Inv cfg (shutdownStep st).1 := by
  obtain ⟨h1, h2⟩ := h
  simp only [Inv, shutdownStep, PoolState.totalCount, List.length_nil] at *
  omega

theorem inv_step (cfg : Config) (st : PoolState) (e : Event) (h : Inv cfg st) :
    Inv cfg (step cfg st e).1 := by
  cases e with
  | acquire c n => exact inv_acquireStep cfg st c n h
  | finishAcq c r => exact inv_finishAcqStep cfg st c r h
  | addStart => exact inv_addStartStep cfg st h
  | finishAdd r => exact inv_finishAddStep cfg st r h
  | zombieDone => exact inv_zombieDoneStep cfg st h
  | release sid f n => exact inv_releaseStep cfg st sid f n h
  | shutdown => exact inv_shutdownStep cfg st h

theorem inv_reach (cfg : Config) (st : PoolState) (h : Reach cfg st) :
    Inv cfg st := by
  induction h with
  | init => exact inv_initState cfg
  | next e _ ih => exact inv_step cfg _ e ih

/-- A sample configuration and session used by concrete witnesses. -/
def cfgA : Config := { size := 2, maxUses := 50, maxAgeMs := 1000,
                       maxIdleMs := 1000, enableWaitQueue := true }

def sessA : Session := { sid := 1, createdAt := 0, useCount := 0,
                         lastUsedAt := 0, connected := true }

/-- A concrete reachable state: one on-demand acquire that completed. -/
def stateA : PoolState :=
  (step cfgA (step cfgA initState (Event.acquire 1 0)).1
    (Event.finishAcq 1 (some sessA))).1

theorem stateA_reach : Reach cfgA stateA :=
  Reach.next (Event.finishAcq 1 (some sessA))
    (Reach.next (Event.acquire 1 0) Reach.init)

/-- C1: for every sequence of acquire/release (and the background
creation, replenish and shutdown segments they trigger) on an initialized
pool, at every quiescent point (no creation in flight) the count of
available plus in-use plus in-flight-creating sessions is at most the
configured size. -/
theorem capacity_invariant (cfg : Config) (st : PoolState) (h : Reach cfg st)
    (hq : st.pending = []) :
    st.available.length + st.inUse.length + st.creating ≤ cfg.size := by
  have hi := inv_reach cfg st h
  simpa [Inv, PoolState.totalCount] using hi.1

theorem capacity_invariant_witness :
    stateA.pending = [] ∧
      stateA.available.length + stateA.inUse.length + stateA.creating ≤ cfgA.size :=
  ⟨by decide, capacity_invariant cfgA stateA stateA_reach (by decide)⟩

/-! ### C2: usability of returned sessions -/

/-- Configuration with `maxUses = 1`, size 1. -/
def cfgB : Config := { size := 1, maxUses := 1, maxAgeMs := 1000,
                       maxIdleMs := 1000, enableWaitQueue := true }

/-- A reachable state of a `cfgB` pool holding one fresh available
session: one background `addSession` that completed. -/
def stateB : PoolState :=
  (step cfgB (step cfgB initState Event.addStart).1
    (Event.finishAdd (some sessA))).1

theorem stateB_reach : Reach cfgB stateB :=
  Reach.next (Event.finishAdd (some sessA)) (Reach.next Event.addStart Reach.init)

/-- C2 counterexample: `acquire()` increments `useCount` before returning,
so with `maxUses = 1` the session handed back already has
`useCount = maxUses` and the usability predicate is false at the time of
return (it was checked, and true, only before the increment). -/
theorem acquire_usable_at_return_cex :
    Reach cfgB stateB ∧
      Out.ret 7 (bump sessA) ∈ (acquireStep cfgB stateB 7 0).2 ∧
      isUsable cfgB 0 (bump sessA) = false :=
  ⟨stateB_reach, by decide, by decide⟩

/-- C2 (amended): every session the `acquire` scan discards (closes)
failed `isUsable` at that moment, and a session returned from the
available stack passed `isUsable` at selection time, immediately before
its use-count increment (`bump`). -/
theorem acquire_returns_preselected_usable (cfg : Config) (st : PoolState)
    (caller now : Nat) (s' : Session)
    (hret : Out.ret caller s' ∈ (acquireStep cfg st caller now).2) :
    (∀ c, Out.close c ∈ (acquireStep cfg st caller now).2 →
        isUsable cfg now c = false) ∧
    ∃ s, isUsable cfg now s = true ∧ s' = bump s := by
  rcases hp : popUsable cfg now st.available with ⟨cl, f, rest⟩
  rcases f with _ | s
  · exfalso
    simp only [acquireStep, hp] at hret
    split at hret <;> [skip; split at hret] <;> simp at hret
  · have hfacts := popUsable_some_facts hp
    have hdisc := popUsable_discards hp
    simp only [acquireStep, hp] at hret ⊢
    constructor
    · intro c hc
      simp only [List.mem_append, List.mem_map, List.mem_cons,
        List.not_mem_nil, or_false] at hc
      rcases hc with ⟨d, hd, hde⟩ | hce
      · cases hde
        exact hdisc _ hd
      · cases hce
    · simp only [List.mem_append, List.mem_map, List.mem_cons,
        List.not_mem_nil, or_false] at hret
      rcases hret with ⟨d, _, hde⟩ | hre
      · cases hde
      · cases hre
        exact ⟨s, hfacts.1, rfl⟩

theorem acquire_returns_preselected_usable_witness :
    (∀ c, Out.close c ∈ (acquireStep cfgB stateB 7 0).2 →
        isUsable cfgB 0 c = false) ∧
    ∃ s, isUsable cfgB 0 s = true ∧ bump sessA = bump s :=
  acquire_returns_preselected_usable cfgB stateB 7 0 (bump sessA) (by decide)

/-! ### C4: health-check replacement (enhanced variant) -/

/-- Method `replaceSession(oldSession)` of the enhanced variant (pool.ts lines
619-677): a no-op when the pool is closed.  The replacement is created
first (`res` is that `createSession` result).  On success the old session
is removed from `available` (if still there), the new one is pushed, and
the old one is closed in the background.  On failure the old session is
still evicted and closed if present. -/
def replaceStep (st : PoolState) (old : Session) (res : Option Session) :
    PoolState × List Out :=
  if st.closed then (st, [])
  else match res with
  | some newS =>
      ({ st with available := newS :: st.available.erase old },
       [Out.provision, Out.close old])
  | none =>
      if old ∈ st.available then
        ({ st with available := st.available.erase old },
         [Out.provision, Out.close old])
      else (st, [Out.provision])

/-- The health sweep of `performHealthCheck` (enhanced variant, pool.ts
lines 590-615): each unusable available session goes through one
`replaceSession`, whose creation result the environment supplies. -/
def healthSweep (st : PoolState) (plan : List (Session × Option Session)) :
    PoolState :=
  plan.foldl (fun acc p => (replaceStep acc p.1 p.2).1) st

/-! ### C5: session creation collaborator models -/

inductive CreateErr where
  | provisioning
  | noCdpUrl
  | connect
deriving DecidableEq, Repr

/-- Environment of one `createSession` call: the provisioning result
(`none` = the create call rejects; `some (sid, hasCdp)` = a session
record, with or without a cdpUrl), whether `connectOverCDP` succeeds, and
the clock. -/
structure CreateEnv where
  provisioned : Option (Nat × Bool)
  connectOk : Bool
  now : Nat
deriving DecidableEq, Repr

/-- Method `createSession` of the basic variant (pool.ts lines 142-163):
provision, throw when no cdpUrl, connect.  No teardown of the provisioned
record is attempted when the connect step fails.  The second component
lists the sessionIds passed to `sdk.browser.session.stop`. -/
def createSessionBasic (env : CreateEnv) : Except CreateErr Session × List Nat :=
  match env.provisioned with
  | none => (.error .provisioning, [])
  | some (sid, hasCdp) =>
    if !hasCdp then (.error .noCdpUrl, [])
    else if env.connectOk then
      (.ok { sid := sid, createdAt := env.now, useCount := 0,
             lastUsedAt := env.now, connected := true }, [])
    else (.error .connect, [])

/-- Method `createSession` of the enhanced variant (pool.ts lines 689-741): the
same flow, except a failing `connectOverCDP` triggers a best-effort
`session.stop({sessionId})` before the connect error is rethrown. -/
def createSessionEnhanced (env : CreateEnv) : Except CreateErr Session × List Nat :=
  match env.provisioned with
  | none => (.error .provisioning, [])
  | some (sid, hasCdp) =>
    if !hasCdp then (.error .noCdpUrl, [])
    else if env.connectOk then
      (.ok { sid := sid, createdAt := env.now, useCount := 0,
             lastUsedAt := env.now, connected := true }, [])
    else (.error .connect, [sid])

/-! ### C3: behaviour of a closed pool -/

def closedState : PoolState := { initState with closed := true }

/-- C3 (code bug evidence): `shutdown()` does fail every waiter queued at
shutdown time, and `addSession` is a no-op on a closed pool — but
`acquire()` has no `closed` check at all: called after shutdown it starts
a fresh remote provisioning call and then hands the new session to the
caller instead of failing with a shutting-down error. -/
theorem acquire_after_shutdown_bug :
    (shutdownStep { initState with waitQueue := [8, 9] }).2
        = [Out.reject 8, Out.reject 9] ∧
    addStartStep cfgA closedState = (closedState, []) ∧
    step cfgA closedState (Event.acquire 5 0)
        = ({ closedState with creating := 1, pending := [Pending.acq 5] },
           [Out.provision]) ∧
    (step cfgA { closedState with creating := 1, pending := [Pending.acq 5] }
        (Event.finishAcq 5 (some sessA))).2 = [Out.ret 5 (bump sessA)] := by
  decide

/-! ### C4 theorems -/

theorem replaceStep_length_mono (st : PoolState) (old newS : Session) :
    st.available.length ≤ (replaceStep st old (some newS)).1.available.length := by
  by_cases hcl : st.closed
  · simp [replaceStep, hcl]
  · simp only [replaceStep, if_neg hcl, List.length_cons]
    by_cases hm : old ∈ st.available
    · have := List.length_erase_add_one hm
      omega
    · rw [List.erase_of_not_mem hm]
      omega

theorem healthSweep_length_mono (plan : List (Session × Option Session)) :
    ∀ st : PoolState, (∀ p ∈ plan, p.2.isSome) →
      st.available.length ≤ (healthSweep st plan).available.length := by
  induction plan with
  | nil =>
    intro st _
    simp [healthSweep]
  | cons p t ih =>
    intro st hsome
    rcases p with ⟨old, res⟩
    have h1 := hsome (old, res) (List.mem_cons_self _ _)
    rcases res with _ | newS
    · simp at h1
    · have h2 : healthSweep st ((old, some newS) :: t)
          = healthSweep (replaceStep st old (some newS)).1 t := by
        simp [healthSweep]
      rw [h2]
      exact le_trans (replaceStep_length_mono st old newS)
        (ih _ (fun q hq => hsome q (List.mem_cons_of_mem _ hq)))

/-- C4: health replacement is replace-before-retire.  The replacement is
created first; on success the old session is removed from `available`
with the new one admitted in its place and the old one closed in the
background, so the available count never drops below its pre-sweep value
— per replacement and over a whole sweep whose creations all succeed. -/
theorem health_replacement (st : PoolState) (old newS : Session)
    (hcl : st.closed = false) (hnd : st.available.Nodup) (hne : newS ≠ old) :
    newS ∈ (replaceStep st old (some newS)).1.available ∧
    old ∉ (replaceStep st old (some newS)).1.available ∧
    Out.close old ∈ (replaceStep st old (some newS)).2 ∧
    st.available.length ≤ (replaceStep st old (some newS)).1.available.length ∧
    (∀ plan : List (Session × Option Session), (∀ p ∈ plan, p.2.isSome) →
      st.available.length ≤ (healthSweep st plan).available.length) := by
  refine ⟨?_, ?_, ?_, replaceStep_length_mono st old newS,
    fun plan h => healthSweep_length_mono plan st h⟩
  · simp [replaceStep, hcl]
  · simp only [replaceStep, hcl, Bool.false_eq_true, if_false]
    intro hmem
    rcases List.mem_cons.mp hmem with he | hm
    · exact hne (he.symm)
    · exact hnd.not_mem_erase hm
  · simp [replaceStep, hcl]

theorem health_replacement_witness :
    (Session.mk 2 0 0 0 true ∈
        (replaceStep { initState with available := [sessA] } sessA
          (some (Session.mk 2 0 0 0 true))).1.available) ∧
    (sessA ∉ (replaceStep { initState with available := [sessA] } sessA
          (some (Session.mk 2 0 0 0 true))).1.available) ∧
    (Out.close sessA ∈ (replaceStep { initState with available := [sessA] } sessA
          (some (Session.mk 2 0 0 0 true))).2) ∧
    (({ initState with available := [sessA] } : PoolState).available.length ≤
        (replaceStep { initState with available := [sessA] } sessA
          (some (Session.mk 2 0 0 0 true))).1.available.length) ∧
    (∀ plan : List (Session × Option Session), (∀ p ∈ plan, p.2.isSome) →
        ({ initState with available := [sessA] } : PoolState).available.length ≤
          (healthSweep { initState with available := [sessA] } plan).available.length) :=
  health_replacement { initState with available := [sessA] } sessA
    (Session.mk 2 0 0 0 true) (by decide) (by decide) (by decide)

/-! ### C5 theorem -/

/-- C5 (code bug evidence): with a provisioned session (id 42, cdpUrl
present) and a failing `connectOverCDP`, the basic variant's
`createSession` propagates the connect error without any
`session.stop` call — the provisioned record dangles — while the enhanced
variant stops session 42 before rethrowing. -/
theorem create_connect_failure_teardown :
    createSessionBasic { provisioned := some (42, true), connectOk := false, now := 0 }
        = (Except.error CreateErr.connect, []) ∧
      createSessionEnhanced { provisioned := some (42, true), connectOk := false, now := 0 }
        = (Except.error CreateErr.connect, [42]) :=
  ⟨rfl, rfl⟩

/-! ### Shared branch equations for `releaseStep`, `acquireStep`, `finishAddStep` -/

theorem releaseStep_serves_head (cfg : Config) (st : PoolState) (sid now : Nat)
    (s : Session) (w : Nat) (rest : List Nat)
    (hfind : st.inUse.find? (fun t => t.sid == sid) = some s)
    (husable : isUsable cfg now s = true)
    (hq : st.waitQueue = w :: rest) (hwq : cfg.enableWaitQueue = true) :
    releaseStep cfg st sid false now
      = ({ st with
             inUse := bump { s with lastUsedAt := now } ::
               st.inUse.eraseP (fun t => t.sid == sid),
             waitQueue := rest },
         [Out.resolve w (bump { s with lastUsedAt := now })]) := by
  simp [releaseStep, hfind, husable, hq, hwq]

theorem releaseStep_pushes (cfg : Config) (st : PoolState) (sid now : Nat)
    (s : Session)
    (hfind : st.inUse.find? (fun t => t.sid == sid) = some s)
    (husable : isUsable cfg now s = true)
    (hq : st.waitQueue = []) :
    releaseStep cfg st sid false now
      = ({ st with
             inUse := st.inUse.eraseP (fun t => t.sid == sid),
             available := { s with lastUsedAt := now } :: st.available }, []) := by
  simp [releaseStep, hfind, husable, hq]

theorem acquireStep_parks (cfg : Config) (st : PoolState) (caller now : Nat)
    (cl : List Session)
    (hpop : popUsable cfg now st.available = (cl, none, []))
    (hcap : cfg.size < st.inUse.length + (st.creating + 1))
    (hwq : cfg.enableWaitQueue = true) :
    acquireStep cfg st caller now
      = ({ st with available := [], waitQueue := st.waitQueue ++ [caller] },
         cl.map Out.close) := by
  simp only [acquireStep, hpop]
  rw [if_neg (by simp only [List.length_nil]; omega), if_pos hwq]

theorem finishAddStep_serves_head (cfg : Config) (st : PoolState) (s : Session)
    (w : Nat) (rest : List Nat)
    (hmem : Pending.add ∈ st.pending) (hcl : st.closed = false)
    (hcap : st.available.length + st.inUse.length + st.creating ≤ cfg.size)
    (hq : st.waitQueue = w :: rest) (hwq : cfg.enableWaitQueue = true) :
    finishAddStep cfg st (some s)
      = ({ st with
             pending := st.pending.erase Pending.add,
             waitQueue := rest,
             inUse := bump s :: st.inUse,
             creating := st.creating - 1 },
         [Out.resolve w (bump s)]) := by
  simp only [finishAddStep, if_pos hmem]
  rw [if_neg (by simp [hcl]),
      if_neg (by simp only [PoolState.totalCount, not_lt]; exact hcap)]
  simp [hq, hwq]

/-! ### C6 -/

/-- C6: for `release(session)` without the fatal flag on a still-usable
session, the session leaves the in-use set and its last-used timestamp is
refreshed to `now`; then it is handed to the longest-waiting queued caller
as a fresh acquisition (use count incremented, entry back in `inUse`, the
waiter's resolve continuation invoked) when the wait queue is enabled and
non-empty, or pushed on top of the available stack otherwise. -/
theorem release_reuses_session (cfg : Config) (st : PoolState) (sid now : Nat)
    (s : Session)
    (hfind : st.inUse.find? (fun t => t.sid == sid) = some s)
    (husable : isUsable cfg now s = true) :
    (∀ w rest, st.waitQueue = w :: rest → cfg.enableWaitQueue = true →
        (releaseStep cfg st sid false now).1.waitQueue = rest ∧
        (releaseStep cfg st sid false now).2
          = [Out.resolve w (bump { s with lastUsedAt := now })] ∧
        bump { s with lastUsedAt := now }
          ∈ (releaseStep cfg st sid false now).1.inUse ∧
        (releaseStep cfg st sid false now).1.inUse.length = st.inUse.length ∧
        (releaseStep cfg st sid false now).1.available = st.available) ∧
    (st.waitQueue = [] →
        (releaseStep cfg st sid false now).1.available
          = { s with lastUsedAt := now } :: st.available ∧
        (releaseStep cfg st sid false now).1.inUse.length + 1
          = st.inUse.length) := by
  have hmem := List.mem_of_find?_eq_some hfind
  have hpa := List.find?_some hfind
  have hlen : (st.inUse.eraseP (fun t => t.sid == sid)).length + 1
      = st.inUse.length := List.length_eraseP_add_one hmem hpa
  constructor
  · intro w rest hq hwq
    rw [releaseStep_serves_head cfg st sid now s w rest hfind husable hq hwq]
    refine ⟨rfl, rfl, List.mem_cons_self _ _, ?_, rfl⟩
    simp only [List.length_cons]
    omega
  · intro hq
    rw [releaseStep_pushes cfg st sid now s hfind husable hq]
    exact ⟨rfl, hlen⟩

theorem release_reuses_session_witness :
    ((releaseStep cfgA { initState with inUse := [sessA], waitQueue := [3] }
        1 false 5).1.waitQueue = [] ∧
     (releaseStep cfgA { initState with inUse := [sessA], waitQueue := [3] }
        1 false 5).2
        = [Out.resolve 3 (bump { sessA with lastUsedAt := 5 })] ∧
     bump { sessA with lastUsedAt := 5 }
        ∈ (releaseStep cfgA { initState with inUse := [sessA], waitQueue := [3] }
            1 false 5).1.inUse ∧
     (releaseStep cfgA { initState with inUse := [sessA], waitQueue := [3] }
        1 false 5).1.inUse.length
        = ({ initState with inUse := [sessA], waitQueue := [3] } : PoolState).inUse.length ∧
     (releaseStep cfgA { initState with inUse := [sessA], waitQueue := [3] }
        1 false 5).1.available
        = ({ initState with inUse := [sessA], waitQueue := [3] } : PoolState).available) :=
  (release_reuses_session cfgA { initState with inUse := [sessA], waitQueue := [3] }
      1 5 sessA (by decide) (by decide)).1 3 [] rfl rfl

/-! ### C7 -/

/-- C7: wait-queue FIFO fairness.  An acquirer that blocks on a saturated
pool is appended at the tail of the wait queue; every hand-off — on a
release of a usable session, or on a background creation completing —
serves the head of the queue (the longest-waiting caller) and leaves the
rest queued in order.  Hence if A blocks before B, A is served first. -/
theorem wait_queue_fifo (cfg : Config) :
    (∀ st caller now cl,
        popUsable cfg now st.available = (cl, none, []) →
        cfg.size < st.inUse.length + (st.creating + 1) →
        cfg.enableWaitQueue = true →
        (acquireStep cfg st caller now).1.waitQueue
          = st.waitQueue ++ [caller]) ∧
    (∀ st sid now s w rest,
        st.inUse.find? (fun t => t.sid == sid) = some s →
        isUsable cfg now s = true →
        st.waitQueue = w :: rest →
        cfg.enableWaitQueue = true →
        (releaseStep cfg st sid false now).1.waitQueue = rest ∧
        Out.resolve w (bump { s with lastUsedAt := now })
          ∈ (releaseStep cfg st sid false now).2) ∧
    (∀ st s w rest,
        Pending.add ∈ st.pending →
        st.closed = false →
        st.available.length + st.inUse.length + st.creating ≤ cfg.size →
        st.waitQueue = w :: rest →
        cfg.enableWaitQueue = true →
        (finishAddStep cfg st (some s)).1.waitQueue = rest ∧
        Out.resolve w (bump s) ∈ (finishAddStep cfg st (some s)).2) := by
  refine ⟨?_, ?_, ?_⟩
  · intro st caller now cl hpop hcap hwq
    rw [acquireStep_parks cfg st caller now cl hpop hcap hwq]
  · intro st sid now s w rest hfind husable hq hwq
    rw [releaseStep_serves_head cfg st sid now s w rest hfind husable hq hwq]
    exact ⟨rfl, List.mem_cons_self _ _⟩
  · intro st s w rest hmem hcl hcap hq hwq
    rw [finishAddStep_serves_head cfg st s w rest hmem hcl hcap hq hwq]
    exact ⟨rfl, List.mem_cons_self _ _⟩

/-- Configuration of the spec scenario: size 1, wait queue enabled. -/
def cfgC : Config := { size := 1, maxUses := 50, maxAgeMs := 1000,
                       maxIdleMs := 1000, enableWaitQueue := true }

theorem wait_queue_fifo_witness :
    ((acquireStep cfgC { initState with inUse := [bump sessA] } 10 0).1.waitQueue
        = [10]) ∧
    ((acquireStep cfgC { initState with inUse := [bump sessA], waitQueue := [10] }
        11 0).1.waitQueue = [10, 11]) ∧
    ((releaseStep cfgC
        { initState with inUse := [bump sessA], waitQueue := [10, 11] }
        1 false 0).1.waitQueue = [11]) ∧
    (Out.resolve 10 (bump { bump sessA with lastUsedAt := 0 })
      ∈ (releaseStep cfgC
          { initState with inUse := [bump sessA], waitQueue := [10, 11] }
          1 false 0).2) := by
  refine ⟨?_, ?_, ?_, ?_⟩
  · exact (wait_queue_fifo cfgC).1 _ 10 0 [] (by decide) (by decide) rfl
  · exact (wait_queue_fifo cfgC).1 _ 11 0 [] (by decide) (by decide) rfl
  · exact ((wait_queue_fifo cfgC).2.1 _ 1 0 (bump sessA) 10 [11]
      (by decide) (by decide) rfl rfl).1
  · exact ((wait_queue_fifo cfgC).2.1 _ 1 0 (bump sessA) 10 [11]
      (by decide) (by decide) rfl rfl).2

/-! ### C8 -/

/-- C8: when the wait queue is disabled and an `acquire()` finds no usable
available session and no remaining capacity, it fails immediately with the
pool-exhausted error within the same synchronous segment: no provisioning
is started, no pending creation is added, and the caller is not parked. -/
theorem exhausted_error_when_queue_disabled (cfg : Config) (st : PoolState)
    (caller now : Nat) (cl : List Session)
    (hwq : cfg.enableWaitQueue = false)
    (hpop : popUsable cfg now st.available = (cl, none, []))
    (hcap : cfg.size < st.inUse.length + (st.creating + 1)) :
    Out.errExhausted caller ∈ (acquireStep cfg st caller now).2 ∧
    Out.provision ∉ (acquireStep cfg st caller now).2 ∧
    (acquireStep cfg st caller now).1.pending = st.pending ∧
    (acquireStep cfg st caller now).1.creating = st.creating ∧
    (acquireStep cfg st caller now).1.waitQueue = st.waitQueue := by
  have hstep : acquireStep cfg st caller now
      = ({ st with available := [] },
         cl.map Out.close ++ [Out.errExhausted caller]) := by
    simp only [acquireStep, hpop]
    rw [if_neg (by simp only [List.length_nil]; omega), if_neg (by simp [hwq])]
  rw [hstep]
  refine ⟨by simp, ?_, rfl, rfl, rfl⟩
  intro hmemp
  rcases List.mem_append.mp hmemp with hmemp | hmemp
  · rcases List.mem_map.mp hmemp with ⟨c, -, hc⟩
    cases hc
  · simp at hmemp

/-- Configuration of the spec scenario for C8: size 1, wait queue
disabled. -/
def cfgD : Config := { size := 1, maxUses := 50, maxAgeMs := 1000,
                       maxIdleMs := 1000, enableWaitQueue := false }

theorem exhausted_error_when_queue_disabled_witness :
    Out.errExhausted 11
        ∈ (acquireStep cfgD { initState with inUse := [bump sessA] } 11 0).2 ∧
    Out.provision
        ∉ (acquireStep cfgD { initState with inUse := [bump sessA] } 11 0).2 ∧
    (acquireStep cfgD { initState with inUse := [bump sessA] } 11 0).1.pending
        = ({ initState with inUse := [bump sessA] } : PoolState).pending ∧
    (acquireStep cfgD { initState with inUse := [bump sessA] } 11 0).1.creating
        = ({ initState with inUse := [bump sessA] } : PoolState).creating ∧
    (acquireStep cfgD { initState with inUse := [bump sessA] } 11 0).1.waitQueue
        = ({ initState with inUse := [bump sessA] } : PoolState).waitQueue :=
  exhausted_error_when_queue_disabled cfgD
    { initState with inUse := [bump sessA] } 11 0 []
    (by decide) (by decide) (by decide)

/-! ### C9 -/

/-- The sessions a list of outputs closes. -/
def closesOf (outs : List Out) : List Session :=
  outs.filterMap fun o => match o with
    | Out.close s => some s
    | _ => none

theorem closesOf_rejects (ws : List Nat) : closesOf (ws.map Out.reject) = [] := by
  induction ws with
  | nil => rfl
  | cons w t ih => simpa [closesOf] using ih

theorem closesOf_closes (ss : List Session) : closesOf (ss.map Out.close) = ss := by
  induction ss with
  | nil => rfl
  | cons s t ih => simpa [closesOf] using ih

theorem closesOf_append (a b : List Out) :
    closesOf (a ++ b) = closesOf a ++ closesOf b := by
  simp [closesOf, List.filterMap_append]

/-- C9: `shutdown()` is idempotent.  A second call rejects no waiter and
closes no session (and, being a total function of the state, cannot
throw); the first call closes exactly the sessions then owned
(`available ++ inUse`); when those are pairwise distinct, no session is
torn down twice across both calls. -/
theorem shutdown_idempotent (st : PoolState)
    (hnd : (st.available ++ st.inUse).Nodup) :
    (shutdownStep (shutdownStep st).1).2 = [] ∧
    closesOf (shutdownStep st).2 = st.available ++ st.inUse ∧
    (closesOf ((shutdownStep st).2 ++ (shutdownStep (shutdownStep st).1).2)).Nodup := by
  have h1 : (shutdownStep (shutdownStep st).1).2 = [] := by
    simp [shutdownStep]
  have h2 : closesOf (shutdownStep st).2 = st.available ++ st.inUse := by
    show closesOf (st.waitQueue.map Out.reject
      ++ (st.available ++ st.inUse).map Out.close) = st.available ++ st.inUse
    rw [closesOf_append, closesOf_rejects, closesOf_closes, List.nil_append]
  refine ⟨h1, h2, ?_⟩
  rw [closesOf_append, h2, h1]
  simpa [closesOf] using hnd

theorem shutdown_idempotent_witness :
    (shutdownStep (shutdownStep
        { initState with available := [sessA],
                         inUse := [Session.mk 2 0 0 0 true],
                         waitQueue := [4] }).1).2 = [] ∧
    closesOf (shutdownStep
        { initState with available := [sessA],
                         inUse := [Session.mk 2 0 0 0 true],
                         waitQueue := [4] }).2
      = [sessA] ++ [Session.mk 2 0 0 0 true] ∧
    (closesOf ((shutdownStep
        { initState with available := [sessA],
                         inUse := [Session.mk 2 0 0 0 true],
                         waitQueue := [4] }).2
      ++ (shutdownStep (shutdownStep
        { initState with available := [sessA],
                         inUse := [Session.mk 2 0 0 0 true],
                         waitQueue := [4] }).1).2)).Nodup :=
  shutdown_idempotent
    { initState with available := [sessA],
                     inUse := [Session.mk 2 0 0 0 true],
                     waitQueue := [4] }
    (by decide)

/-! ### C10 -/

/-- C10: when the on-demand create inside `acquire()` completes but the
re-check finds `totalCount > size`, the fresh session is closed, enters
neither `available` nor `inUse`, and the caller is not served: with the
wait queue enabled it is appended to the queue, otherwise it gets the
pool-exhausted error. -/
theorem overcapacity_create_discarded (cfg : Config) (st : PoolState)
    (caller : Nat) (s : Session)
    (hp : Pending.acq caller ∈ st.pending)
    (hover : cfg.size < st.available.length + st.inUse.length + st.creating) :
    Out.close s ∈ (finishAcqStep cfg st caller (some s)).2 ∧
    (finishAcqStep cfg st caller (some s)).1.available = st.available ∧
    (finishAcqStep cfg st caller (some s)).1.inUse = st.inUse ∧
    (∀ t, Out.ret caller t ∉ (finishAcqStep cfg st caller (some s)).2) ∧
    (cfg.enableWaitQueue = true →
      (finishAcqStep cfg st caller (some s)).1.waitQueue
        = st.waitQueue ++ [caller]) ∧
    (cfg.enableWaitQueue = false →
      Out.errExhausted caller ∈ (finishAcqStep cfg st caller (some s)).2) := by
  have hov : cfg.size <
      ({ st with pending := st.pending.erase (Pending.acq caller) }
        : PoolState).totalCount := by
    simpa [PoolState.totalCount] using hover
  cases hwq : cfg.enableWaitQueue with
  | true =>
    have hstep : finishAcqStep cfg st caller (some s)
        = ({ st with
               pending := st.pending.erase (Pending.acq caller),
               creating := st.creating - 1,
               waitQueue := st.waitQueue ++ [caller] }, [Out.close s]) := by
      simp only [finishAcqStep, if_pos hp]
      rw [if_pos hov, if_pos hwq]
    rw [hstep]
    refine ⟨by simp, rfl, rfl, ?_, fun _ => rfl, by simp⟩
    intro t ht
    simp at ht
  | false =>
    have hstep : finishAcqStep cfg st caller (some s)
        = ({ st with
               pending := st.pending.erase (Pending.acq caller),
               creating := st.creating - 1 },
           [Out.close s, Out.errExhausted caller]) := by
      simp only [finishAcqStep, if_pos hp]
      rw [if_pos hov, if_neg (by simp [hwq])]
    rw [hstep]
    refine ⟨by simp, rfl, rfl, ?_, by simp [hwq], fun _ => by simp⟩
    intro t ht
    simp at ht

theorem overcapacity_create_discarded_witness :
    Out.close sessA ∈ (finishAcqStep cfgC
        { initState with creating := 5, pending := [Pending.acq 9] }
        9 (some sessA)).2 ∧
    (finishAcqStep cfgC
        { initState with creating := 5, pending := [Pending.acq 9] }
        9 (some sessA)).1.available
      = ({ initState with creating := 5, pending := [Pending.acq 9] }
          : PoolState).available ∧
    (finishAcqStep cfgC
        { initState with creating := 5, pending := [Pending.acq 9] }
        9 (some sessA)).1.inUse
      = ({ initState with creating := 5, pending := [Pending.acq 9] }
          : PoolState).inUse ∧
    (∀ t, Out.ret 9 t ∉ (finishAcqStep cfgC
        { initState with creating := 5, pending := [Pending.acq 9] }
        9 (some sessA)).2) ∧
    (cfgC.enableWaitQueue = true →
      (finishAcqStep cfgC
          { initState with creating := 5, pending := [Pending.acq 9] }
          9 (some sessA)).1.waitQueue
        = ({ initState with creating := 5, pending := [Pending.acq 9] }
            : PoolState).waitQueue ++ [9]) ∧
    (cfgC.enableWaitQueue = false →
      Out.errExhausted 9 ∈ (finishAcqStep cfgC
          { initState with creating := 5, pending := [Pending.acq 9] }
          9 (some sessA)).2) :=
  overcapacity_create_discarded cfgC
    { initState with creating := 5, pending := [Pending.acq 9] }
    9 sessA (by decide) (by decide)

end BrowserPool
